import Mathlib

/-!
Verification of the organiJob backend against its design notes.

The repository has two server variants with an identical HTTP surface:
a relational (Postgres) variant in server.js and a flat-file variant
storing a JSON document with users, sessions and contacts arrays.
The flat-file variant is a pure function of the stored document, so it is
embedded here as explicit state passing over a `Db` record; the relational
variant differs only in the contact sanitisation step (it additionally
normalises the call date through the JS Date parser), which is embedded
separately as `sanitizedContactsPg`.

Sources of nondeterminism in the code (pbkdf2, random salts, random
tokens, random UUIDs, the clock, the JS Date parser) are passed in as
explicit parameters, so every operation is a total computable function.

JS string primitives used by the handlers (trim, toLowerCase, includes,
startsWith, slice, split) are modelled over the character list of a
`String`, which keeps them evaluable by the kernel.
-/

namespace OrganiJob

/-- Model of JS String.prototype.trim: strip whitespace from both ends. -/
def jsTrim (s : String) : String :=
  ⟨((s.data.dropWhile Char.isWhitespace).reverse.dropWhile Char.isWhitespace).reverse⟩

/-- Model of JS String.prototype.toLowerCase. -/
def jsToLower (s : String) : String :=
  ⟨s.data.map Char.toLower⟩

/-- Model of JS String.prototype.includes for a single-character needle. -/
def jsIncludes (s : String) (c : Char) : Bool :=
  s.data.contains c

/-- Character-list test: the first list heads the second. -/
def hasPrefixCh : List Char → List Char → Bool
  | [], _ => true
  | _ :: _, [] => false
  | p :: ps, c :: cs => p == c && hasPrefixCh ps cs

/-- Model of JS String.prototype.startsWith. -/
def jsStartsWith (s p : String) : Bool :=
  hasPrefixCh p.data s.data

/-- Model of JS String.prototype.slice with a start index only. -/
def jsDrop (s : String) (n : Nat) : String :=
  ⟨s.data.drop n⟩

/-- Model of JS url.split with a question mark, keeping element zero. -/
def takeBeforeQuery (s : String) : String :=
  ⟨s.data.takeWhile (fun c => c != '?')⟩

/-- Helper for `splitSlash`: accumulate the current segment reversed. -/
def splitSlashAux (acc : List Char) : List Char → List String
  | [] => [⟨acc.reverse⟩]
  | c :: cs => if c = '/' then ⟨acc.reverse⟩ :: splitSlashAux [] cs else splitSlashAux (c :: acc) cs

/-- Model of JS path.split on the slash character. -/
def splitSlash (s : String) : List String :=
  splitSlashAux [] s.data

/-- User row: id, email, password hash, password salt. Timestamps carried by
the store are irrelevant to every claim and are omitted. -/
structure User where
  id : String
  email : String
  passwordHash : String
  passwordSalt : String
deriving DecidableEq, Repr

/-- Session row: opaque token, owning user id, creation timestamp. -/
structure Session where
  token : String
  userId : String
  createdAt : String
deriving DecidableEq, Repr

/-- Contact row as stored by the flat-file variant. -/
structure Contact where
  id : String
  userId : String
  nom : String
  organisation : String
  dateAppel : String
  expertise : String
  inclusivite : String
  notes : String
  updatedAt : String
deriving DecidableEq, Repr

/-- Incoming contact record of a PUT body. Absent or falsy JS fields arrive
as the empty string, matching the sources coercion with String(x or ''). -/
structure RawContact where
  id : String
  userId : String
  nom : String
  organisation : String
  dateAppel : String
  expertise : String
  inclusivite : String
  notes : String
deriving DecidableEq, Repr

/-- The three stored collections. -/
structure Db where
  users : List User
  sessions : List Session
  contacts : List Contact
deriving DecidableEq, Repr

/-- normalizeEmail from the source: trim then lowercase. -/
def normalizeEmail (email : String) : String :=
  jsToLower (jsTrim email)

/-- normalizePassword from the source: String(password or ''), identity on strings. -/
def normalizePassword (password : String) : String :=
  password

/-- isValidEmail from the source: truthy, contains an at sign and a dot. -/
def isValidEmail (email : String) : Bool :=
  email != "" && jsIncludes email '@' && jsIncludes email '.'

/-- isValidPassword from the source: at least 8 characters. -/
def isValidPassword (password : String) : Bool :=
  8 ≤ password.data.length

/-- hashPassword from the source, with pbkdf2 abstract: returns salt and hash. -/
def hashPassword (pbkdf2 : String → String → String) (password salt : String) :
    String × String :=
  (salt, pbkdf2 password salt)

/-- verifyPassword from the source: recompute the derived hash and compare.
The comparison in the code is crypto.timingSafeEqual on the hex decodings;
its functional content on equal-length hashes is plain equality. -/
def verifyPassword (pbkdf2 : String → String → String)
    (password salt expectedHash : String) : Bool :=
  pbkdf2 password salt == expectedHash

/-- Bearer token extraction shared by the handlers: slice off the prefix
Bearer plus space, otherwise the empty string. -/
def extractToken (auth : String) : String :=
  if jsStartsWith auth "Bearer " then jsDrop auth 7 else ""

/-- getUserFromAuth from the source: resolve the bearer token to a session,
then the session to its user; any failure yields none. -/
def getUserFromAuth (db : Db) (auth : String) : Option (User × String) :=
  let token := extractToken auth
  if token = "" then none
  else
    match db.sessions.find? (fun s => s.token == token) with
    | none => none
    | some s =>
      match db.users.find? (fun u => u.id == s.userId) with
      | none => none
      | some u => some (u, token)

/-- issueSession from the source: drop every session of the user, then
append one with the fresh token. -/
def issueSession (db : Db) (userId token now : String) : Db :=
  { db with
    sessions := db.sessions.filter (fun s => s.userId != userId) ++
      [{ token := token, userId := userId, createdAt := now }] }

/-- Outcome of the register handler. -/
inductive RegisterOut where
  | invalidEmail
  | shortPassword
  | conflict
  | created (token userId email : String)
deriving DecidableEq, Repr

/-- HTTP status sent for each register outcome. -/
def RegisterOut.status : RegisterOut → Nat
  | .invalidEmail => 400
  | .shortPassword => 400
  | .conflict => 409
  | .created _ _ _ => 201

/-- Replace the first list element satisfying the test, JS mutation of the
object returned by Array.prototype.find. -/
def updateFirst (p : α → Bool) (f : α → α) : List α → List α
  | [] => []
  | x :: xs => if p x then f x :: xs else x :: updateFirst p f xs

/-- POST /api/auth/register handler, flat-file variant. Validation, conflict
when the matched user already has a password, otherwise create (or, for a
stored user without a password, overwrite hash and salt) and issue a session. -/
def register (pbkdf2 : String → String → String)
    (now freshId freshSalt freshToken : String)
    (db : Db) (emailIn passwordIn : String) : RegisterOut × Db :=
  let email := normalizeEmail emailIn
  let password := normalizePassword passwordIn
  if !(isValidEmail email) then (.invalidEmail, db)
  else if !(isValidPassword password) then (.shortPassword, db)
  else
    match db.users.find? (fun u => u.email == email) with
    | some existing =>
      if existing.passwordHash != "" && existing.passwordSalt != "" then (.conflict, db)
      else
        let hs := hashPassword pbkdf2 password freshSalt
        let db1 := { db with
          users := updateFirst (fun u => u.email == email)
            (fun u => { u with passwordHash := hs.2, passwordSalt := hs.1 }) db.users }
        (.created freshToken existing.id email, issueSession db1 existing.id freshToken now)
    | none =>
      let hs := hashPassword pbkdf2 password freshSalt
      let user : User :=
        { id := freshId, email := email, passwordHash := hs.2, passwordSalt := hs.1 }
      let db1 := { db with users := db.users ++ [user] }
      (.created freshToken user.id email, issueSession db1 user.id freshToken now)

/-- Outcome of the login handler. -/
inductive LoginOut where
  | invalidEmail
  | notFound
  | wrongPassword
  | ok (token userId email : String)
deriving DecidableEq, Repr

/-- HTTP status sent for each login outcome. -/
def LoginOut.status : LoginOut → Nat
  | .invalidEmail => 400
  | .notFound => 404
  | .wrongPassword => 401
  | .ok _ _ _ => 200

/-- POST /api/auth/login handler, flat-file variant. -/
def login (pbkdf2 : String → String → String) (now freshToken : String)
    (db : Db) (emailIn passwordIn : String) : LoginOut × Db :=
  let email := normalizeEmail emailIn
  let password := normalizePassword passwordIn
  if !(isValidEmail email) then (.invalidEmail, db)
  else
    match db.users.find? (fun u => u.email == email) with
    | none => (.notFound, db)
    | some user =>
      if user.passwordHash == "" || user.passwordSalt == "" then (.notFound, db)
      else if !(verifyPassword pbkdf2 password user.passwordSalt user.passwordHash) then
        (.wrongPassword, db)
      else (.ok freshToken user.id user.email, issueSession db user.id freshToken now)

/-- The logout handler always answers 200 with ok true. -/
structure LogoutOut where
  status : Nat
  ok : Bool
deriving DecidableEq, Repr

/-- POST /api/auth/logout handler, flat-file variant: drop every session
carrying the extracted token and answer 200 regardless. -/
def logout (db : Db) (auth : String) : LogoutOut × Db :=
  let token := extractToken auth
  ({ status := 200, ok := true },
    { db with sessions := db.sessions.filter (fun s => s.token != token) })

/-- One incoming record mapped as in the PUT handler: trim every text field,
keep the client id unless falsy (then a generated one), force the owning
user id to the authenticated user. -/
def sanitizeOne (userId now freshId : String) (c : RawContact) : Contact :=
  { id := if c.id = "" then freshId else c.id
    userId := userId
    nom := jsTrim c.nom
    organisation := jsTrim c.organisation
    dateAppel := jsTrim c.dateAppel
    expertise := jsTrim c.expertise
    inclusivite := jsTrim c.inclusivite
    notes := jsTrim c.notes
    updatedAt := now }

/-- The filter of the PUT handler, flat-file variant: nom, organisation and
the date string must be truthy after trimming. -/
def keepContact (c : Contact) : Bool :=
  c.nom != "" && c.organisation != "" && c.dateAppel != ""

/-- sanitizedContacts of the PUT handler, flat-file variant: map then filter.
Generated ids are drawn per input position from freshIds. -/
def sanitizedContacts (userId now : String) (freshIds : Nat → String)
    (contacts : List RawContact) : List Contact :=
  (contacts.enum.map (fun ic => sanitizeOne userId now (freshIds ic.1) ic.2)).filter
    keepContact

/-- normalizeDate of the relational variant: trim, reject empty, then hand
to the JS Date parser (abstract parseDate, returning the ISO string of a
parseable input and none for an unparseable one). -/
def normalizeDate (parseDate : String → Option String) (dateAppel : String) :
    Option String :=
  let raw := jsTrim dateAppel
  if raw = "" then none else parseDate raw

/-- Sanitised contact of the relational variant; the date is the normalized
ISO string, none when unparseable. -/
structure ContactPg where
  id : String
  userId : String
  nom : String
  organisation : String
  dateAppel : Option String
  expertise : String
  inclusivite : String
  notes : String
deriving DecidableEq, Repr

/-- One incoming record mapped as in the relational PUT handler. -/
def sanitizeOnePg (parseDate : String → Option String) (userId freshId : String)
    (c : RawContact) : ContactPg :=
  { id := if c.id = "" then freshId else c.id
    userId := userId
    nom := jsTrim c.nom
    organisation := jsTrim c.organisation
    dateAppel := normalizeDate parseDate c.dateAppel
    expertise := jsTrim c.expertise
    inclusivite := jsTrim c.inclusivite
    notes := jsTrim c.notes }

/-- The filter of the relational PUT handler: nom and organisation truthy,
date successfully normalized. -/
def keepContactPg (c : ContactPg) : Bool :=
  c.nom != "" && c.organisation != "" && c.dateAppel.isSome

/-- sanitizedContacts of the relational PUT handler. -/
def sanitizedContactsPg (parseDate : String → Option String) (userId : String)
    (freshIds : Nat → String) (contacts : List RawContact) : List ContactPg :=
  (contacts.enum.map (fun ic => sanitizeOnePg parseDate userId (freshIds ic.1) ic.2)).filter
    keepContactPg

/-- Spec-side keep condition for the flat-file variant, phrased on the raw
record: trimmed nom, organisation and date string nonempty. -/
def specKeepFile (c : RawContact) : Bool :=
  jsTrim c.nom != "" && jsTrim c.organisation != "" && jsTrim c.dateAppel != ""

/-- Spec-side keep condition for the relational variant, phrased on the raw
record: trimmed nom and organisation nonempty and the date parseable. -/
def specKeepPg (parseDate : String → Option String) (c : RawContact) : Bool :=
  jsTrim c.nom != "" && jsTrim c.organisation != "" &&
    (normalizeDate parseDate c.dateAppel).isSome

/-- Outcome of the GET /api/sync handler. -/
inductive PullOut where
  | unauthorized
  | ok (userId email : String) (contacts : List Contact)
deriving DecidableEq, Repr

/-- HTTP status sent for each pull outcome. -/
def PullOut.status : PullOut → Nat
  | .unauthorized => 401
  | .ok _ _ _ => 200

/-- Descending call-date order used by the pull handler; dv models the JS
Date valuation new Date(s).getTime() of a stored date string. -/
def dateDesc (dv : String → Int) (a b : Contact) : Prop :=
  dv b.dateAppel ≤ dv a.dateAppel

instance (dv : String → Int) : DecidableRel (dateDesc dv) :=
  fun a b => Int.decLe _ _

instance (dv : String → Int) : IsTotal Contact (dateDesc dv) :=
  ⟨fun a b => Int.le_total (dv b.dateAppel) (dv a.dateAppel)⟩

instance (dv : String → Int) : IsTrans Contact (dateDesc dv) :=
  ⟨fun _ _ _ hab hbc => le_trans hbc hab⟩

/-- GET /api/sync handler, flat-file variant: authenticate, select the
contacts of the user, stable-sort by call date descending. The JS
Array.prototype.sort with a consistent comparator is a stable sort, which
insertion sort realises. -/
def syncGet (dv : String → Int) (db : Db) (auth : String) : PullOut :=
  match getUserFromAuth db auth with
  | none => .unauthorized
  | some (u, _) =>
    .ok u.id u.email
      (List.insertionSort (dateDesc dv) (db.contacts.filter (fun c => c.userId == u.id)))

/-- Outcome of the PUT /api/sync handler. -/
inductive PushOut where
  | unauthorized
  | badFormat
  | ok (count : Nat)
deriving DecidableEq, Repr

/-- HTTP status sent for each push outcome. -/
def PushOut.status : PushOut → Nat
  | .unauthorized => 401
  | .badFormat => 400
  | .ok _ => 200

/-- PUT /api/sync handler, flat-file variant. The body is none when the
request carries no contacts array. On success the whole contact set of the
user is replaced by the sanitized list and the count answered is its length. -/
def syncPut (now : String) (freshIds : Nat → String) (db : Db) (auth : String)
    (body : Option (List RawContact)) : PushOut × Db :=
  match getUserFromAuth db auth with
  | none => (.unauthorized, db)
  | some (u, _) =>
    match body with
    | none => (.badFormat, db)
    | some incomingContacts =>
      let sc := sanitizedContacts u.id now freshIds incomingContacts
      (.ok sc.length,
        { db with contacts := db.contacts.filter (fun c => c.userId != u.id) ++ sc })

/-- Segment normalisation of Node path.join: drop empty and dot segments,
let a dot-dot segment pop the last kept one (or vanish at the root). The
accumulator holds the kept segments reversed. -/
def normSegsAux (acc : List String) : List String → List String
  | [] => acc.reverse
  | seg :: rest =>
    if seg = "" || seg = "." then normSegsAux acc rest
    else if seg = ".." then
      match acc with
      | [] => normSegsAux [] rest
      | _ :: accTail => normSegsAux accTail rest
    else normSegsAux (seg :: acc) rest

/-- Print an absolute path from its segments; the empty list is the root. -/
def mkAbs : List String → String
  | [] => "/"
  | [s] => "/" ++ s
  | s :: rest => "/" ++ s ++ mkAbs rest

/-- Model of Node path.join(root, p) for an absolute root: concatenate with
a separator and normalize. -/
def pathJoin (root p : String) : String :=
  mkAbs (normSegsAux [] (splitSlash (root ++ "/" ++ p)))

/-- The joined file path of the static fallback: map the bare slash to
index.html, strip the query string, join onto the application root. -/
def staticFilepath (root url : String) : String :=
  let safePath := if url = "/" then "/index.html" else url
  let cleaned := takeBeforeQuery safePath
  pathJoin root cleaned

/-- The containment test of the static fallback: the request is served when
the joined path starts with the root string, otherwise answered 403. -/
def staticServed (root url : String) : Bool :=
  jsStartsWith (staticFilepath root url) root

/-- A path lies within the root directory: it is the root itself or extends
it past a separator. -/
def isWithinRoot (root p : String) : Prop :=
  p = root ∨ hasPrefixCh (root.data ++ ['/']) p.data = true

instance (root p : String) : Decidable (isWithinRoot root p) :=
  inferInstanceAs (Decidable (_ ∨ _))

/-- Spec-side: a path segment that join normalisation keeps as written. -/
def keepSeg (seg : String) : Bool :=
  !(seg == "" || seg == ".")

/-! Concrete fixtures used by the evaluation witnesses. -/

/-- Concrete stand-in for the pbkdf2 key derivation in the witnesses. -/
def pbConc (password salt : String) : String :=
  password ++ "|" ++ salt

/-- Concrete date valuation for the witnesses. -/
def dvConc (s : String) : Int :=
  s.data.length

/-- Concrete generator of fresh contact ids for the witnesses. -/
def genConc (_ : Nat) : String :=
  "gen"

/-- Concrete date parser for the witnesses: accepts one fixed ISO day. -/
def parseConc (s : String) : Option String :=
  if s = "2024-05-02" then some "2024-05-02T00:00:00.000Z" else none

/-- A stored user whose hash matches password1 under pbConc. -/
def userA : User :=
  { id := "u1", email := "a@b.cd", passwordHash := pbConc "password1" "s1",
    passwordSalt := "s1" }

/-- A live session of userA. -/
def sessA : Session :=
  { token := "t1", userId := "u1", createdAt := "t0" }

/-- A database with one user and one live session. -/
def dbA : Db :=
  { users := [userA], sessions := [sessA], contacts := [] }

/-- The empty database. -/
def dbEmpty : Db :=
  { users := [], sessions := [], contacts := [] }

/-- An older session of userA, to be invalidated by a new login. -/
def sessOld : Session :=
  { token := "oldtok", userId := "u1", createdAt := "t0" }

/-- Database before the re-login of userA. -/
def dbOld : Db :=
  { users := [userA], sessions := [sessOld], contacts := [] }

/-- Database after the re-login of userA with the fresh token. -/
def dbNew : Db :=
  { users := [userA], sessions := [{ token := "newtok", userId := "u1", createdAt := "n1" }],
    contacts := [] }

/-- A valid incoming contact with fields needing a trim. -/
def rawGood : RawContact :=
  { id := "c1", userId := "ignored", nom := " Alice ", organisation := "Org",
    dateAppel := "2024-05-02", expertise := "", inclusivite := "", notes := " n " }

/-- A second valid incoming contact with a falsy id. -/
def rawGood2 : RawContact :=
  { id := "", userId := "", nom := "Bob", organisation := "O2",
    dateAppel := "2024-05-02", expertise := "e", inclusivite := "i", notes := "" }

/-- An incoming contact whose call date is not parseable as a date. -/
def rawBadDate : RawContact :=
  { id := "c3", userId := "x", nom := "Alice", organisation := "Org",
    dateAppel := "not-a-date", expertise := "", inclusivite := "", notes := "" }

/-! Shared helper lemmas. -/

/-- Authentication reads only users and sessions, never contacts. -/
theorem getUserFromAuth_setContacts (db : Db) (cs : List Contact) (auth : String) :
    getUserFromAuth { db with contacts := cs } auth = getUserFromAuth db auth :=
  rfl

/-- Filtering for an owner after filtering the owner away yields nothing. -/
theorem filter_ne_then_eq {α : Type} (f : α → String) (uid : String) (l : List α) :
    (l.filter (fun x => f x != uid)).filter (fun x => f x == uid) = [] := by
  rw [List.filter_eq_nil_iff]
  intro x hx
  have h1 := (List.mem_filter.mp hx).2
  simp only [bne_iff_ne, ne_eq] at h1
  simp [h1]

/-- Filtering the owner away twice is the same as once. -/
theorem filter_ne_idem {α : Type} (f : α → String) (uid : String) (l : List α) :
    (l.filter (fun x => f x != uid)).filter (fun x => f x != uid) =
      l.filter (fun x => f x != uid) := by
  rw [List.filter_filter]
  simp

/-- Contact instance of `filter_ne_then_eq`. -/
theorem contacts_filter_ne_then_eq (uid : String) (l : List Contact) :
    (l.filter (fun c => c.userId != uid)).filter (fun c => c.userId == uid) = [] :=
  filter_ne_then_eq (fun c => c.userId) uid l

/-- Contact instance of `filter_ne_idem`. -/
theorem contacts_filter_ne_idem (uid : String) (l : List Contact) :
    (l.filter (fun c => c.userId != uid)).filter (fun c => c.userId != uid) =
      l.filter (fun c => c.userId != uid) :=
  filter_ne_idem (fun c => c.userId) uid l

/-- Session instance of `filter_ne_then_eq`. -/
theorem sessions_filter_ne_then_eq (uid : String) (l : List Session) :
    (l.filter (fun s => s.userId != uid)).filter (fun s => s.userId == uid) = [] :=
  filter_ne_then_eq (fun s => s.userId) uid l

/-- Every sanitized contact is owned by the authenticated user. -/
theorem sanitizedContacts_userId (userId now : String) (freshIds : Nat → String)
    (cs : List RawContact) :
    ∀ c ∈ sanitizedContacts userId now freshIds cs, c.userId = userId := by
  intro c hc
  have h1 := (List.mem_filter.mp hc).1
  obtain ⟨ic, _, rfl⟩ := List.mem_map.mp h1
  rfl

/-- Sanitized contacts survive the keep-the-owner filter unchanged. -/
theorem sanitized_filter_eq (userId now : String) (freshIds : Nat → String)
    (cs : List RawContact) :
    (sanitizedContacts userId now freshIds cs).filter (fun c => c.userId == userId) =
      sanitizedContacts userId now freshIds cs := by
  rw [List.filter_eq_self]
  intro c hc
  have := sanitizedContacts_userId userId now freshIds cs c hc
  simp [this]

/-- Sanitized contacts vanish under the drop-the-owner filter. -/
theorem sanitized_filter_ne (userId now : String) (freshIds : Nat → String)
    (cs : List RawContact) :
    (sanitizedContacts userId now freshIds cs).filter (fun c => c.userId != userId) = [] := by
  rw [List.filter_eq_nil_iff]
  intro c hc
  have := sanitizedContacts_userId userId now freshIds cs c hc
  simp [this]

/-- An unknown bearer token makes authentication fail. -/
theorem auth_none_of_find_none (db : Db) (hdr : String)
    (hf : db.sessions.find? (fun s => s.token == extractToken hdr) = none) :
    getUserFromAuth db hdr = none := by
  unfold getUserFromAuth
  by_cases he : extractToken hdr = "" <;> simp [he, hf]

/-! Claim theorems. -/

/-- C8: the logout handler always answers 200 with ok true; it deletes
exactly the sessions carrying the extracted token, leaves users and
contacts untouched, and running it twice leaves the state of running it
once. -/
theorem C8_logout_total (db : Db) (auth : String) :
    (logout db auth).1 = { status := 200, ok := true } ∧
    (logout db auth).2.users = db.users ∧
    (logout db auth).2.contacts = db.contacts ∧
    (logout db auth).2.sessions =
      db.sessions.filter (fun s => s.token != extractToken auth) ∧
    logout (logout db auth).2 auth = logout db auth := by
  refine ⟨rfl, rfl, rfl, rfl, ?_⟩
  simp [logout, List.filter_filter]

/-- C7: an absent, malformed or unknown bearer token authenticates as none
and both sync handlers then answer 401 without touching the state; a token
that does resolve yields a stored user reached through a stored session. -/
theorem C7_bearer_auth (dv : String → Int) (now : String) (freshIds : Nat → String)
    (db : Db) (auth : String) (body : Option (List RawContact)) :
    (extractToken auth = "" → getUserFromAuth db auth = none) ∧
    ((∀ s ∈ db.sessions, s.token ≠ extractToken auth) →
      getUserFromAuth db auth = none) ∧
    (getUserFromAuth db auth = none →
      syncGet dv db auth = .unauthorized ∧ (syncGet dv db auth).status = 401 ∧
      syncPut now freshIds db auth body = (.unauthorized, db)) ∧
    (∀ u tok, getUserFromAuth db auth = some (u, tok) →
      u ∈ db.users ∧ tok = extractToken auth ∧
      ∃ s ∈ db.sessions, s.token = tok ∧ s.userId = u.id) := by
  refine ⟨?_, ?_, ?_, ?_⟩
  · intro h
    simp [getUserFromAuth, h]
  · intro h
    refine auth_none_of_find_none db auth ?_
    rw [List.find?_eq_none]
    intro s hs
    simpa using h s hs
  · intro h
    exact ⟨by simp [syncGet, h], by simp [syncGet, h, PullOut.status],
      by simp [syncPut, h]⟩
  · intro u tok h
    unfold getUserFromAuth at h
    by_cases he : extractToken auth = ""
    · simp [he] at h
    · rw [if_neg he] at h
      cases hf : db.sessions.find? (fun s => s.token == extractToken auth) with
      | none => rw [hf] at h; exact Option.noConfusion h
      | some s =>
        rw [hf] at h
        dsimp only at h
        cases hu : db.users.find? (fun u2 => u2.id == s.userId) with
        | none => rw [hu] at h; exact Option.noConfusion h
        | some u2 =>
          rw [hu] at h
          dsimp only at h
          have hinj := Option.some.inj h
          have hu2 : u2 = u := congrArg Prod.fst hinj
          have htok : extractToken auth = tok := congrArg Prod.snd hinj
          subst hu2
          refine ⟨List.mem_of_find?_eq_some hu, htok.symm,
            s, List.mem_of_find?_eq_some hf, ?_, ?_⟩
          · have := List.find?_some hf
            rw [htok] at this
            simpa using this
          · have h3 : u2.id = s.userId := by simpa using List.find?_some hu
            exact h3.symm

/-- C7 witness: a token matching no stored session is unauthenticated. -/
theorem C7_bearer_auth_witness :
    (∀ s ∈ dbA.sessions, s.token ≠ extractToken "Bearer zz") ∧
    getUserFromAuth dbA "Bearer zz" = none :=
  ⟨by decide,
    (C7_bearer_auth dvConc "n1" genConc dbA "Bearer zz" none).2.1 (by decide)⟩

/-- C6: a successful push by an authenticated user changes nothing except
the contact set of that user, which is replaced in its entirety by the
sanitized list: users, sessions, and the contacts of every other user are
unchanged. -/
theorem C6_push_frame (now : String) (freshIds : Nat → String) (db : Db)
    (auth : String) (u : User) (tok : String) (cs : List RawContact)
    (hauth : getUserFromAuth db auth = some (u, tok)) :
    (syncPut now freshIds db auth (some cs)).2.users = db.users ∧
    (syncPut now freshIds db auth (some cs)).2.sessions = db.sessions ∧
    (syncPut now freshIds db auth (some cs)).2.contacts.filter
        (fun c => c.userId != u.id) =
      db.contacts.filter (fun c => c.userId != u.id) ∧
    (syncPut now freshIds db auth (some cs)).2.contacts.filter
        (fun c => c.userId == u.id) =
      sanitizedContacts u.id now freshIds cs := by
  have h2 : (syncPut now freshIds db auth (some cs)).2 =
      { db with contacts := db.contacts.filter (fun c => c.userId != u.id) ++
          sanitizedContacts u.id now freshIds cs } := by
    simp [syncPut, hauth]
  rw [h2]
  dsimp only
  refine ⟨rfl, rfl, ?_, ?_⟩
  · rw [List.filter_append, contacts_filter_ne_idem,
      sanitized_filter_ne, List.append_nil]
  · rw [List.filter_append, contacts_filter_ne_then_eq,
      sanitized_filter_eq, List.nil_append]

/-- C6 witness: a concrete authenticated push. -/
theorem C6_push_frame_witness :
    getUserFromAuth dbA "Bearer t1" = some (userA, "t1") ∧
    ((syncPut "n1" genConc dbA "Bearer t1" (some [rawGood])).2.users = dbA.users ∧
    (syncPut "n1" genConc dbA "Bearer t1" (some [rawGood])).2.sessions = dbA.sessions ∧
    (syncPut "n1" genConc dbA "Bearer t1" (some [rawGood])).2.contacts.filter
        (fun c => c.userId != userA.id) =
      dbA.contacts.filter (fun c => c.userId != userA.id) ∧
    (syncPut "n1" genConc dbA "Bearer t1" (some [rawGood])).2.contacts.filter
        (fun c => c.userId == userA.id) =
      sanitizedContacts userA.id "n1" genConc [rawGood]) :=
  ⟨by decide, C6_push_frame "n1" genConc dbA "Bearer t1" userA "t1" [rawGood] (by decide)⟩

/-- C10: sanitisation stamps the authenticated user as owner of every kept
record, the userId supplied in the body is ignored entirely, and every
contact a push adds to the store is owned by the requester. -/
theorem C10_owner_forced (now : String) (freshIds : Nat → String) (uid : String)
    (cs : List RawContact) (g : RawContact → String) (db : Db) (auth : String)
    (u : User) (tok : String)
    (hauth : getUserFromAuth db auth = some (u, tok)) :
    (∀ c ∈ sanitizedContacts uid now freshIds cs, c.userId = uid) ∧
    sanitizedContacts uid now freshIds
        (cs.map (fun c => { c with userId := g c })) =
      sanitizedContacts uid now freshIds cs ∧
    (∀ c ∈ (syncPut now freshIds db auth (some cs)).2.contacts,
      c ∉ db.contacts → c.userId = u.id) := by
  refine ⟨sanitizedContacts_userId uid now freshIds cs, ?_, ?_⟩
  · unfold sanitizedContacts
    rw [List.enum_map, List.map_map]
    have hfun : ((fun ic : Nat × RawContact => sanitizeOne uid now (freshIds ic.1) ic.2) ∘
        Prod.map id (fun c => { c with userId := g c })) =
        (fun ic : Nat × RawContact => sanitizeOne uid now (freshIds ic.1) ic.2) := by
      funext ic
      rcases ic with ⟨i, c⟩
      rfl
    rw [hfun]
  · intro c hc hnot
    simp only [syncPut, hauth] at hc
    rcases List.mem_append.mp hc with h1 | h2
    · exact absurd (List.mem_filter.mp h1).1 hnot
    · exact sanitizedContacts_userId u.id now freshIds cs c h2

/-- C10 witness: a concrete push cannot plant a record for another user. -/
theorem C10_owner_forced_witness :
    getUserFromAuth dbA "Bearer t1" = some (userA, "t1") ∧
    ((∀ c ∈ sanitizedContacts "u1" "n1" genConc [rawGood], c.userId = "u1") ∧
    sanitizedContacts "u1" "n1" genConc
        ([rawGood].map (fun c => { c with userId := "evil" })) =
      sanitizedContacts "u1" "n1" genConc [rawGood] ∧
    (∀ c ∈ (syncPut "n1" genConc dbA "Bearer t1" (some [rawGood])).2.contacts,
      c ∉ dbA.contacts → c.userId = userA.id)) :=
  ⟨by decide,
    C10_owner_forced "n1" genConc "u1" [rawGood] (fun _ => "evil") dbA "Bearer t1"
      userA "t1" (by decide)⟩

/-- C1: a successful push followed by a pull with the same bearer token
answers the count of sanitized records, and the pull returns a list that
is exactly the sanitized pushed set (a permutation, no more and no fewer)
sorted by call date descending. -/
theorem C1_push_then_pull (dv : String → Int) (now : String) (freshIds : Nat → String)
    (db : Db) (auth : String) (u : User) (tok : String) (cs : List RawContact)
    (hauth : getUserFromAuth db auth = some (u, tok)) :
    (syncPut now freshIds db auth (some cs)).1 =
      .ok (sanitizedContacts u.id now freshIds cs).length ∧
    ∃ l, syncGet dv (syncPut now freshIds db auth (some cs)).2 auth = .ok u.id u.email l ∧
      l.Perm (sanitizedContacts u.id now freshIds cs) ∧ l.Sorted (dateDesc dv) := by
  have h2 : (syncPut now freshIds db auth (some cs)).2 =
      { db with contacts := db.contacts.filter (fun c => c.userId != u.id) ++
          sanitizedContacts u.id now freshIds cs } := by
    simp [syncPut, hauth]
  constructor
  · simp [syncPut, hauth]
  · rw [h2]
    have hauth2 : getUserFromAuth
        { db with contacts := db.contacts.filter (fun c => c.userId != u.id) ++
            sanitizedContacts u.id now freshIds cs } auth = some (u, tok) :=
      (getUserFromAuth_setContacts db _ auth).trans hauth
    have hfilter : ((db.contacts.filter (fun c => c.userId != u.id)) ++
        sanitizedContacts u.id now freshIds cs).filter (fun c => c.userId == u.id) =
        sanitizedContacts u.id now freshIds cs := by
      rw [List.filter_append, contacts_filter_ne_then_eq,
        sanitized_filter_eq, List.nil_append]
    refine ⟨List.insertionSort (dateDesc dv) (sanitizedContacts u.id now freshIds cs),
      ?_, List.perm_insertionSort _ _, List.sorted_insertionSort _ _⟩
    unfold syncGet
    rw [hauth2]
    dsimp only
    rw [hfilter]

/-- C1 witness: a concrete push of two records then a pull. -/
theorem C1_push_then_pull_witness :
    getUserFromAuth dbA "Bearer t1" = some (userA, "t1") ∧
    ((syncPut "n1" genConc dbA "Bearer t1" (some [rawGood, rawGood2])).1 =
      .ok (sanitizedContacts userA.id "n1" genConc [rawGood, rawGood2]).length ∧
    ∃ l, syncGet dvConc (syncPut "n1" genConc dbA "Bearer t1"
        (some [rawGood, rawGood2])).2 "Bearer t1" = .ok userA.id userA.email l ∧
      l.Perm (sanitizedContacts userA.id "n1" genConc [rawGood, rawGood2]) ∧
      l.Sorted (dateDesc dvConc)) :=
  ⟨by decide,
    C1_push_then_pull dvConc "n1" genConc dbA "Bearer t1" userA "t1"
      [rawGood, rawGood2] (by decide)⟩

/-- C2 counterexample: the claim requires a record to be kept only when its
call date is parseable as a date, but the flat-file variant keeps any
record whose trimmed date string is nonempty: the record rawBadDate with
call date not-a-date (NaN under the JS Date parser, modelled by a parse
function rejecting it) is kept by the flat-file sanitiser while the
relational sanitiser drops it. -/
theorem C2_unparseable_date_kept :
    (sanitizedContacts "u1" "n1" genConc [rawBadDate]).length = 1 ∧
    (sanitizedContactsPg (fun _ => none) "u1" genConc [rawBadDate]).length = 0 := by
  decide

/-- C2 amended: the stored set consists exactly of the sanitized images of
the records passing the keep test, in order; in the relational variant the
test is trimmed nom and organisation nonempty plus a parseable date, while
in the flat-file variant it is trimmed nom, organisation and date string
nonempty (no parse); the other text fields are trimmed (defaulting to
empty), a generated id replaces a falsy one, and the success response
counts the kept records. -/
theorem C2_sanitize_characterisation (parseDate : String → Option String)
    (uid now : String) (freshIds : Nat → String) (cs : List RawContact)
    (db : Db) (auth : String) (u : User) (tok : String)
    (hauth : getUserFromAuth db auth = some (u, tok)) :
    sanitizedContacts uid now freshIds cs =
      (cs.enum.filter (fun ic => specKeepFile ic.2)).map
        (fun ic => sanitizeOne uid now (freshIds ic.1) ic.2) ∧
    sanitizedContactsPg parseDate uid freshIds cs =
      (cs.enum.filter (fun ic => specKeepPg parseDate ic.2)).map
        (fun ic => sanitizeOnePg parseDate uid (freshIds ic.1) ic.2) ∧
    (syncPut now freshIds db auth (some cs)).1 =
      .ok (sanitizedContacts u.id now freshIds cs).length := by
  refine ⟨?_, ?_, by simp [syncPut, hauth]⟩
  · unfold sanitizedContacts
    rw [List.filter_map]
    exact congrArg _ (List.filter_congr fun ic _ => rfl)
  · unfold sanitizedContactsPg
    rw [List.filter_map]
    exact congrArg _ (List.filter_congr fun ic _ => rfl)

/-- C2 witness: the characterisation evaluated on a concrete push. -/
theorem C2_sanitize_characterisation_witness :
    getUserFromAuth dbA "Bearer t1" = some (userA, "t1") ∧
    (sanitizedContacts "u1" "n1" genConc [rawGood, rawBadDate] =
      (([rawGood, rawBadDate].enum.filter (fun ic => specKeepFile ic.2)).map
        (fun ic => sanitizeOne "u1" "n1" (genConc ic.1) ic.2)) ∧
    sanitizedContactsPg parseConc "u1" genConc [rawGood, rawBadDate] =
      (([rawGood, rawBadDate].enum.filter (fun ic => specKeepPg parseConc ic.2)).map
        (fun ic => sanitizeOnePg parseConc "u1" (genConc ic.1) ic.2)) ∧
    (syncPut "n1" genConc dbA "Bearer t1" (some [rawGood, rawBadDate])).1 =
      .ok (sanitizedContacts userA.id "n1" genConc [rawGood, rawBadDate]).length) :=
  ⟨by decide,
    C2_sanitize_characterisation parseConc "u1" "n1" genConc [rawGood, rawBadDate]
      dbA "Bearer t1" userA "t1" (by decide)⟩

/-- C3: registration answers 400 exactly when the normalized email or the
password fails validation, 409 exactly when a user with that email already
exists (every stored user has a password), and otherwise 201 creating the
user with the salted derived hash and issuing a fresh session that
replaces any prior session of that user. -/
theorem C3_register_cases (pbkdf2 : String → String → String)
    (now freshId freshSalt freshToken : String) (db : Db) (emailIn passwordIn : String)
    (hwf : ∀ uu ∈ db.users, uu.passwordHash ≠ "" ∧ uu.passwordSalt ≠ "") :
    ((isValidEmail (normalizeEmail emailIn) = false ∨ isValidPassword passwordIn = false) ↔
      (register pbkdf2 now freshId freshSalt freshToken db emailIn passwordIn).1.status =
        400) ∧
    (isValidEmail (normalizeEmail emailIn) = true → isValidPassword passwordIn = true →
      ((∃ uu ∈ db.users, uu.email = normalizeEmail emailIn) ↔
        (register pbkdf2 now freshId freshSalt freshToken db emailIn passwordIn).1.status =
          409)) ∧
    (isValidEmail (normalizeEmail emailIn) = true → isValidPassword passwordIn = true →
      (∀ uu ∈ db.users, uu.email ≠ normalizeEmail emailIn) →
      register pbkdf2 now freshId freshSalt freshToken db emailIn passwordIn =
        (.created freshToken freshId (normalizeEmail emailIn),
          { users := db.users ++
              [⟨freshId, normalizeEmail emailIn, pbkdf2 passwordIn freshSalt, freshSalt⟩],
            sessions := db.sessions.filter (fun s => s.userId != freshId) ++
              [⟨freshToken, freshId, now⟩],
            contacts := db.contacts })) := by
  refine ⟨?_, ?_, ?_⟩
  · by_cases hve : isValidEmail (normalizeEmail emailIn) = true
    · by_cases hvp : isValidPassword passwordIn = true
      · have h4 : (register pbkdf2 now freshId freshSalt freshToken db
            emailIn passwordIn).1.status ≠ 400 := by
          cases hfind : db.users.find? (fun uu => uu.email == normalizeEmail emailIn) with
          | none =>
            have hst : (register pbkdf2 now freshId freshSalt freshToken db
                emailIn passwordIn).1.status = 201 := by
              simp [register, hve, hvp, hfind, normalizePassword, RegisterOut.status]
            rw [hst]
            decide
          | some ex =>
            obtain ⟨hh, hs⟩ := hwf ex (List.mem_of_find?_eq_some hfind)
            have hh2 : (ex.passwordHash != "") = true := by simpa using hh
            have hs2 : (ex.passwordSalt != "") = true := by simpa using hs
            have hst : (register pbkdf2 now freshId freshSalt freshToken db
                emailIn passwordIn).1.status = 409 := by
              simp [register, hve, hvp, hfind, hh2, hs2, normalizePassword,
                RegisterOut.status]
            rw [hst]
            decide
        constructor
        · rintro (h | h)
          · rw [hve] at h
            exact absurd h (by decide)
          · rw [hvp] at h
            exact absurd h (by decide)
        · intro h
          exact absurd h h4
      · have hvp2 : isValidPassword passwordIn = false := by simpa using hvp
        have hst : (register pbkdf2 now freshId freshSalt freshToken db
            emailIn passwordIn).1.status = 400 := by
          simp [register, hve, hvp2, normalizePassword, RegisterOut.status]
        simp [hst, hvp2]
    · have hve2 : isValidEmail (normalizeEmail emailIn) = false := by simpa using hve
      have hst : (register pbkdf2 now freshId freshSalt freshToken db
          emailIn passwordIn).1.status = 400 := by
        simp [register, hve2, RegisterOut.status]
      simp [hst, hve2]
  · intro hve hvp
    cases hfind : db.users.find? (fun uu => uu.email == normalizeEmail emailIn) with
    | none =>
      have hst : (register pbkdf2 now freshId freshSalt freshToken db
          emailIn passwordIn).1.status = 201 := by
        simp [register, hve, hvp, hfind, normalizePassword, RegisterOut.status]
      rw [hst]
      constructor
      · rintro ⟨x, hx, he⟩
        have := List.find?_eq_none.mp hfind x hx
        simp [he] at this
      · intro h
        exact absurd h (by decide)
    | some ex =>
      obtain ⟨hh, hs⟩ := hwf ex (List.mem_of_find?_eq_some hfind)
      have hh2 : (ex.passwordHash != "") = true := by simpa using hh
      have hs2 : (ex.passwordSalt != "") = true := by simpa using hs
      have hst : (register pbkdf2 now freshId freshSalt freshToken db
          emailIn passwordIn).1.status = 409 := by
        simp [register, hve, hvp, hfind, hh2, hs2, normalizePassword, RegisterOut.status]
      rw [hst]
      constructor
      · intro _
        rfl
      · intro _
        have hex : ex.email = normalizeEmail emailIn := by
          simpa using List.find?_some hfind
        exact ⟨ex, List.mem_of_find?_eq_some hfind, hex⟩
  · intro hve hvp hnone
    have hfind : db.users.find? (fun uu => uu.email == normalizeEmail emailIn) = none :=
      List.find?_eq_none.mpr (fun x hx => by simpa using hnone x hx)
    simp [register, hve, hvp, hfind, normalizePassword, hashPassword, issueSession]

/-- C3 witness: registering a fresh account on the empty store. -/
theorem C3_register_cases_witness :
    (∀ uu ∈ dbEmpty.users, uu.passwordHash ≠ "" ∧ uu.passwordSalt ≠ "") ∧
    (((isValidEmail (normalizeEmail "a@b.cd") = false ∨
        isValidPassword "password1" = false) ↔
      (register pbConc "n1" "u9" "s9" "tk9" dbEmpty "a@b.cd" "password1").1.status = 400) ∧
    (isValidEmail (normalizeEmail "a@b.cd") = true → isValidPassword "password1" = true →
      ((∃ uu ∈ dbEmpty.users, uu.email = normalizeEmail "a@b.cd") ↔
        (register pbConc "n1" "u9" "s9" "tk9" dbEmpty "a@b.cd" "password1").1.status =
          409)) ∧
    (isValidEmail (normalizeEmail "a@b.cd") = true → isValidPassword "password1" = true →
      (∀ uu ∈ dbEmpty.users, uu.email ≠ normalizeEmail "a@b.cd") →
      register pbConc "n1" "u9" "s9" "tk9" dbEmpty "a@b.cd" "password1" =
        (.created "tk9" "u9" (normalizeEmail "a@b.cd"),
          { users := dbEmpty.users ++
              [⟨"u9", normalizeEmail "a@b.cd", pbConc "password1" "s9", "s9"⟩],
            sessions := dbEmpty.sessions.filter (fun s => s.userId != "u9") ++
              [⟨"tk9", "u9", "n1"⟩],
            contacts := dbEmpty.contacts }))) :=
  ⟨by simp [dbEmpty],
    C3_register_cases pbConc "n1" "u9" "s9" "tk9" dbEmpty "a@b.cd" "password1"
      (by simp [dbEmpty])⟩

/-- C4: with a well-formed email, login answers 404 when no user carries the
normalized email, 401 when the derived hash differs from the stored hash,
and otherwise 200 with a fresh session replacing every prior session of
the user. -/
theorem C4_login_cases (pbkdf2 : String → String → String) (now freshToken : String)
    (db : Db) (emailIn passwordIn : String)
    (hvalid : isValidEmail (normalizeEmail emailIn) = true)
    (hwf : ∀ uu ∈ db.users, uu.passwordHash ≠ "" ∧ uu.passwordSalt ≠ "") :
    ((∀ uu ∈ db.users, uu.email ≠ normalizeEmail emailIn) →
      login pbkdf2 now freshToken db emailIn passwordIn = (.notFound, db) ∧
      LoginOut.status .notFound = 404) ∧
    (∀ uu, db.users.find? (fun u2 => u2.email == normalizeEmail emailIn) = some uu →
      (pbkdf2 passwordIn uu.passwordSalt ≠ uu.passwordHash →
        login pbkdf2 now freshToken db emailIn passwordIn = (.wrongPassword, db) ∧
        LoginOut.status .wrongPassword = 401) ∧
      (pbkdf2 passwordIn uu.passwordSalt = uu.passwordHash →
        login pbkdf2 now freshToken db emailIn passwordIn =
          (.ok freshToken uu.id uu.email,
            { db with sessions := db.sessions.filter (fun s => s.userId != uu.id) ++
                [{ token := freshToken, userId := uu.id, createdAt := now }] }))) := by
  constructor
  · intro hno
    have hfind : db.users.find? (fun u2 => u2.email == normalizeEmail emailIn) = none :=
      List.find?_eq_none.mpr (fun x hx => by simpa using hno x hx)
    exact ⟨by simp [login, hvalid, hfind], rfl⟩
  · intro uu hfind
    obtain ⟨hh, hs⟩ := hwf uu (List.mem_of_find?_eq_some hfind)
    have hh2 : (uu.passwordHash == "") = false := by simpa using hh
    have hs2 : (uu.passwordSalt == "") = false := by simpa using hs
    constructor
    · intro hne
      have hne2 : (pbkdf2 passwordIn uu.passwordSalt == uu.passwordHash) = false := by
        simpa using hne
      refine ⟨?_, rfl⟩
      simp [login, hvalid, hfind, hh2, hs2, verifyPassword, normalizePassword, hne2]
    · intro heq
      have heq2 : (pbkdf2 passwordIn uu.passwordSalt == uu.passwordHash) = true := by
        simpa using heq
      simp [login, hvalid, hfind, hh2, hs2, verifyPassword, normalizePassword, heq2,
        issueSession]

/-- C4 witness: wrong password on a concrete store is unauthorized. -/
theorem C4_login_cases_witness :
    isValidEmail (normalizeEmail "a@b.cd") = true ∧
    (∀ uu ∈ dbA.users, uu.passwordHash ≠ "" ∧ uu.passwordSalt ≠ "") ∧
    (login pbConc "n1" "tk9" dbA "a@b.cd" "wrongpass" = (.wrongPassword, dbA) ∧
      LoginOut.status .wrongPassword = 401) :=
  ⟨by decide, by decide,
    ((C4_login_cases pbConc "n1" "tk9" dbA "a@b.cd" "wrongpass" (by decide)
        (by decide)).2 userA (by decide)).1 (by decide)⟩

/-- After issuing a fresh session, a distinct older token of the same user
matches no stored session (session tokens being pairwise distinct). -/
theorem session_token_gone (db : Db) (uid tokn now : String)
    (hdistinct : db.sessions.Pairwise (fun s1 s2 => s1.token ≠ s2.token))
    (s : Session) (hs : s ∈ db.sessions) (hsu : s.userId = uid) (hst : s.token ≠ tokn) :
    (issueSession db uid tokn now).sessions.find? (fun s2 => s2.token == s.token) =
      none := by
  rw [List.find?_eq_none]
  intro x hx
  simp only [issueSession] at hx
  rcases List.mem_append.mp hx with h1 | h2
  · obtain ⟨hxmem, hxne⟩ := List.mem_filter.mp h1
    have hxs : x ≠ s := by
      intro he
      rw [he] at hxne
      simp [hsu] at hxne
    have hxt := hdistinct.forall (fun _ _ h => Ne.symm h) hxmem hs hxs
    simpa using hxt
  · have hx2 : x = ⟨tokn, uid, now⟩ := by simpa using h2
    rw [hx2]
    simpa using Ne.symm hst

/-- Issuing a session leaves exactly one session of the user and kills every
distinct older token of that user, for any store sharing the sessions. -/
theorem issueSession_invariant (db db1 : Db) (uid tokn now : String)
    (hsess : db1.sessions = db.sessions)
    (hdistinct : db.sessions.Pairwise (fun s1 s2 => s1.token ≠ s2.token)) :
    (issueSession db1 uid tokn now).sessions.filter (fun s => s.userId == uid) =
      [⟨tokn, uid, now⟩] ∧
    ∀ s ∈ db.sessions, s.userId = uid → s.token ≠ tokn →
      ∀ hdr : String, extractToken hdr = s.token →
        getUserFromAuth (issueSession db1 uid tokn now) hdr = none := by
  have h1 : (issueSession db1 uid tokn now).sessions =
      db.sessions.filter (fun s => s.userId != uid) ++ [⟨tokn, uid, now⟩] := by
    simp [issueSession, hsess]
  constructor
  · rw [h1, List.filter_append, sessions_filter_ne_then_eq]
    simp
  · intro s hs hsu hst hdr hhdr
    by_cases hemp : s.token = ""
    · have h0 : extractToken hdr = "" := by rw [hhdr, hemp]
      simp [getUserFromAuth, h0]
    · have hfind : (issueSession db1 uid tokn now).sessions.find?
          (fun s2 => s2.token == extractToken hdr) = none := by
        rw [hhdr]
        have h3 : (issueSession db1 uid tokn now).sessions =
            (issueSession db uid tokn now).sessions := by
          simp [issueSession, hsess]
        rw [h3]
        exact session_token_gone db uid tokn now hdistinct s hs hsu hst
      exact auth_none_of_find_none _ hdr hfind

/-- C5: after every completed register or login for a user, exactly one
session of that user exists (the fresh one), and every distinct token of
that user issued before no longer authenticates. -/
theorem C5_single_session (pbkdf2 : String → String → String)
    (now freshId freshSalt freshToken : String) (db : Db) (emailIn passwordIn : String)
    (hdistinct : db.sessions.Pairwise (fun s1 s2 => s1.token ≠ s2.token)) :
    (∀ tok uid em db2,
      register pbkdf2 now freshId freshSalt freshToken db emailIn passwordIn =
        (.created tok uid em, db2) →
      db2.sessions.filter (fun s => s.userId == uid) = [⟨tok, uid, now⟩] ∧
      ∀ s ∈ db.sessions, s.userId = uid → s.token ≠ tok →
        ∀ hdr : String, extractToken hdr = s.token → getUserFromAuth db2 hdr = none) ∧
    (∀ tok uid em db2,
      login pbkdf2 now freshToken db emailIn passwordIn = (.ok tok uid em, db2) →
      db2.sessions.filter (fun s => s.userId == uid) = [⟨tok, uid, now⟩] ∧
      ∀ s ∈ db.sessions, s.userId = uid → s.token ≠ tok →
        ∀ hdr : String, extractToken hdr = s.token → getUserFromAuth db2 hdr = none) := by
  constructor
  · intro tok uid em db2 heq
    simp only [register] at heq
    split at heq
    · exact absurd heq (by simp)
    · split at heq
      · exact absurd heq (by simp)
      · split at heq
        · split at heq
          · exact absurd heq (by simp)
          · rw [Prod.mk.injEq] at heq
            obtain ⟨h1, h2⟩ := heq
            rw [RegisterOut.created.injEq] at h1
            obtain ⟨ht, hu, _⟩ := h1
            subst ht
            subst hu
            rw [← h2]
            exact issueSession_invariant db _ _ _ now rfl hdistinct
        · rw [Prod.mk.injEq] at heq
          obtain ⟨h1, h2⟩ := heq
          rw [RegisterOut.created.injEq] at h1
          obtain ⟨ht, hu, _⟩ := h1
          subst ht
          subst hu
          rw [← h2]
          exact issueSession_invariant db _ _ _ now rfl hdistinct
  · intro tok uid em db2 heq
    simp only [login] at heq
    split at heq
    · exact absurd heq (by simp)
    · split at heq
      · exact absurd heq (by simp)
      · split at heq
        · exact absurd heq (by simp)
        · split at heq
          · exact absurd heq (by simp)
          · rw [Prod.mk.injEq] at heq
            obtain ⟨h1, h2⟩ := heq
            rw [LoginOut.ok.injEq] at h1
            obtain ⟨ht, hu, _⟩ := h1
            subst ht
            subst hu
            rw [← h2]
            exact issueSession_invariant db _ _ _ now rfl hdistinct

/-- C5 witness: re-login of userA invalidates the old token. -/
theorem C5_single_session_witness :
    dbOld.sessions.Pairwise (fun s1 s2 => s1.token ≠ s2.token) ∧
    getUserFromAuth dbNew "Bearer oldtok" = none :=
  ⟨by simp [dbOld],
    (((C5_single_session pbConc "n1" "u9" "s9" "newtok" dbOld "a@b.cd" "password1"
        (by simp [dbOld])).2 "newtok" "u1" "a@b.cd" dbNew (by decide)).2
      sessOld (by decide) (by decide) (by decide) "Bearer oldtok" (by decide))⟩

/-- A character list heads its own extension. -/
theorem hasPrefixCh_append (p rest : List Char) : hasPrefixCh p (p ++ rest) = true := by
  induction p with
  | nil => rfl
  | cons c cs ih => simp [hasPrefixCh, ih]

/-- A character list heads itself. -/
theorem hasPrefixCh_refl (p : List Char) : hasPrefixCh p p = true := by
  have h := hasPrefixCh_append p []
  rwa [List.append_nil] at h

/-- Splitting distributes over a separator placed between two lists. -/
theorem splitSlashAux_append (xs ys : List Char) (acc : List Char) :
    splitSlashAux acc (xs ++ '/' :: ys) = splitSlashAux acc xs ++ splitSlashAux [] ys := by
  induction xs generalizing acc with
  | nil => simp [splitSlashAux]
  | cons x xs ih =>
    by_cases hx : x = '/'
    · simp [splitSlashAux, hx, ih]
    · simp [splitSlashAux, hx, ih]

/-- The slash character list of the separator string. -/
theorem slash_data : ("/" : String).data = ['/'] :=
  rfl

/-- Splitting distributes over string concatenation with a separator. -/
theorem splitSlash_append (a b : String) :
    splitSlash (a ++ "/" ++ b) = splitSlash a ++ splitSlash b := by
  unfold splitSlash
  have hdata : (a ++ "/" ++ b).data = a.data ++ '/' :: b.data := by
    rw [String.data_append, String.data_append, slash_data, List.append_assoc]
    rfl
  rw [hdata]
  exact splitSlashAux_append a.data b.data []

/-- Segment normalisation processes an appended list by continuing from the
kept segments of the first part. -/
theorem normSegsAux_append (l1 l2 : List String) (acc : List String) :
    normSegsAux acc (l1 ++ l2) = normSegsAux (normSegsAux acc l1).reverse l2 := by
  induction l1 generalizing acc with
  | nil => simp [normSegsAux]
  | cons seg rest ih =>
    by_cases h1 : seg = ""
    · simp [normSegsAux, h1, ih]
    · by_cases h2 : seg = "."
      · simp [normSegsAux, h1, h2, ih]
      · by_cases h3 : seg = ".."
        · cases acc with
          | nil => simp [normSegsAux, h1, h2, h3, ih]
          | cons a0 atail => simp [normSegsAux, h1, h2, h3, ih]
        · simp [normSegsAux, h1, h2, h3, ih]

/-- Without dot-dot segments, normalisation appends the kept segments. -/
theorem normSegsAux_no_dots (l : List String) (acc : List String)
    (h : ∀ seg ∈ l, seg ≠ "..") :
    normSegsAux acc l = acc.reverse ++ l.filter keepSeg := by
  induction l generalizing acc with
  | nil => simp [normSegsAux]
  | cons seg rest ih =>
    have hseg : seg ≠ ".." := h seg (by simp)
    have hrest : ∀ s2 ∈ rest, s2 ≠ ".." := fun s2 hs2 => h s2 (by simp [hs2])
    by_cases h1 : seg = ""
    · have hstep : normSegsAux acc (seg :: rest) = normSegsAux acc rest := by
        simp [normSegsAux, h1]
      have hfil : List.filter keepSeg (seg :: rest) = List.filter keepSeg rest := by
        simp [keepSeg, h1]
      rw [hstep, hfil, ih acc hrest]
    · by_cases h2 : seg = "."
      · have hstep : normSegsAux acc (seg :: rest) = normSegsAux acc rest := by
          simp [normSegsAux, h1, h2]
        have hfil : List.filter keepSeg (seg :: rest) = List.filter keepSeg rest := by
          simp [keepSeg, h2]
        rw [hstep, hfil, ih acc hrest]
      · have hstep : normSegsAux acc (seg :: rest) = normSegsAux (seg :: acc) rest := by
          simp [normSegsAux, h1, h2, hseg]
        have hfil : List.filter keepSeg (seg :: rest) = seg :: List.filter keepSeg rest := by
          simp [keepSeg, h1, h2]
        rw [hstep, hfil, ih (seg :: acc) hrest]
        simp

/-- Printing an absolute path from a nonempty segment list. -/
theorem mkAbs_cons (x : String) (l : List String) (hl : l ≠ []) :
    mkAbs (x :: l) = "/" ++ x ++ mkAbs l := by
  cases l with
  | nil => exact absurd rfl hl
  | cons z zs => rfl

/-- Printing distributes over appending nonempty segment lists. -/
theorem mkAbs_cons_append (x : String) (xs b : List String) (hb : b ≠ []) :
    mkAbs ((x :: xs) ++ b) = mkAbs (x :: xs) ++ mkAbs b := by
  induction xs generalizing x with
  | nil =>
    rw [List.singleton_append, mkAbs_cons x b hb]
    rfl
  | cons z zs ih =>
    rw [List.cons_append, mkAbs_cons x ((z :: zs) ++ b) (by simp),
      mkAbs_cons x (z :: zs) (by simp), ih z]
    simp [String.append_assoc]

/-- A printed nonempty path starts with the separator. -/
theorem mkAbs_head (l : List String) (hl : l ≠ []) :
    ∃ t : String, mkAbs l = "/" ++ t := by
  cases l with
  | nil => exact absurd rfl hl
  | cons x xs =>
    cases xs with
    | nil => exact ⟨x, rfl⟩
    | cons z zs =>
      refine ⟨x ++ mkAbs (z :: zs), ?_⟩
      rw [mkAbs_cons x (z :: zs) (by simp), String.append_assoc]

/-- C9 counterexample: with application root /srv/app, the request
/../app2/secret joins to /srv/app2/secret, which escapes the root, yet it
passes the startsWith containment test and is served rather than answered
403, refuting the claim that no file outside the root is ever served. -/
theorem C9_sibling_escape_served :
    staticServed "/srv/app" "/../app2/secret" = true ∧
    staticFilepath "/srv/app" "/../app2/secret" = "/srv/app2/secret" ∧
    ¬ isWithinRoot "/srv/app" (staticFilepath "/srv/app" "/../app2/secret") := by
  refine ⟨by decide, by decide, by decide⟩

/-- C9 amended: the fallback serves a request exactly when the joined path
extends the application-root string, and for every request whose
query-stripped path contains no dot-dot segment the joined path does lie
within the root (so containment fails only for crafted dot-dot paths that
land in a sibling whose name extends the root string). -/
theorem C9_containment (root url : String) (rootSegs : List String)
    (hroot : root = mkAbs rootSegs)
    (hnorm : normSegsAux [] (splitSlash root) = rootSegs)
    (hne : rootSegs ≠ [])
    (hurl : ∀ seg ∈ splitSlash (takeBeforeQuery (if url = "/" then "/index.html" else url)),
      seg ≠ "..") :
    staticServed root url = true ∧ isWithinRoot root (staticFilepath root url) := by
  have hpath : staticFilepath root url =
      mkAbs (rootSegs ++ (splitSlash (takeBeforeQuery
        (if url = "/" then "/index.html" else url))).filter keepSeg) := by
    simp only [staticFilepath, pathJoin]
    rw [splitSlash_append, normSegsAux_append, hnorm,
      normSegsAux_no_dots _ _ hurl, List.reverse_reverse]
  cases hkept : (splitSlash (takeBeforeQuery
      (if url = "/" then "/index.html" else url))).filter keepSeg with
  | nil =>
    rw [hkept, List.append_nil, ← hroot] at hpath
    constructor
    · unfold staticServed jsStartsWith
      rw [hpath]
      exact hasPrefixCh_refl root.data
    · exact Or.inl hpath
  | cons k ks =>
    rw [hkept] at hpath
    cases rootSegs with
    | nil => exact absurd rfl hne
    | cons r0 rs =>
      rw [mkAbs_cons_append r0 rs (k :: ks) (by simp)] at hpath
      obtain ⟨t, ht⟩ := mkAbs_head (k :: ks) (by simp)
      rw [ht, ← hroot] at hpath
      have hdata : (staticFilepath root url).data = (root.data ++ ['/']) ++ t.data := by
        rw [hpath, String.data_append, String.data_append, slash_data,
          List.append_assoc]
      constructor
      · unfold staticServed jsStartsWith
        rw [hdata, List.append_assoc]
        exact hasPrefixCh_append root.data ('/' :: t.data)
      · exact Or.inr (by rw [hdata]; exact hasPrefixCh_append (root.data ++ ['/']) t.data)

/-- C9 witness: an ordinary request resolves within the root and is served. -/
theorem C9_containment_witness :
    ("/srv/app" : String) = mkAbs ["srv", "app"] ∧
    normSegsAux [] (splitSlash "/srv/app") = ["srv", "app"] ∧
    (∀ seg ∈ splitSlash (takeBeforeQuery
      (if ("/tools.html" : String) = "/" then "/index.html" else "/tools.html")),
      seg ≠ "..") ∧
    (staticServed "/srv/app" "/tools.html" = true ∧
      isWithinRoot "/srv/app" (staticFilepath "/srv/app" "/tools.html")) :=
  ⟨by decide, by decide, by decide,
    C9_containment "/srv/app" "/tools.html" ["srv", "app"] (by decide) (by decide)
      (by decide) (by decide)⟩

end OrganiJob
